import Mathlib

/-
Verification of the record-mapping and schema-migration engine (yubo/libgo):
a shallow embedding of the SQLite DDL rewrite engine (orm/sqlite.go), the
automigrate engine, the row binder (Row/Rows), bulk script execution and
connection opening, with theorems checking the design document's claims.

Machine strings are modelled as Lean `String`/`List Char`; Go `int`/`int64`
values appearing here (bracket depth, row caps, column sizes) stay well within
64 bits for every input considered, so they are modelled as `Int`; Go `nil`
pointers are modelled as `Option`.  Fallible Go functions returning
`(T, error)` are modelled as `Option T` or `Except Err T`.
-/

namespace LibGo

/-! ### The DDL tokenizer (orm/sqlite.go, sqliteParseDDL) -/

/-- Go strings.TrimSpace on the characters of a string: drop whitespace from
both ends. -/
def trimChars (l : List Char) : List Char :=
  ((l.dropWhile Char.isWhitespace).reverse.dropWhile Char.isWhitespace).reverse

/-- Go strings.HasPrefix: `p` is a prefix of `s`. -/
def hasPrefixC : List Char → List Char → Bool
  | _, [] => true
  | [], _ :: _ => false
  | c :: cs, p :: ps => c = p && hasPrefixC cs ps

/-- Go regexp's `\w` and `\d` classes (ASCII word characters), as used in the
DDL header pattern `[\w\d]+`. -/
def isWordChar (c : Char) : Bool := c.isAlphanum || c = '_'

/-- The quote characters admitted by the DDL header pattern's character class
`["`]`. -/
def isDDLQuote (c : Char) : Bool := c = '"' || c = '`'

/-- The quote characters recognised by the clause scanner of sqliteParseDDL:
single quote, double quote and backtick. -/
def isClauseQuote (c : Char) : Bool := c = '\'' || c = '"' || c = '`'

/-- The post-loop handling of sqliteParseDDL: a nonzero final bracket depth
is the "unbalanced brackets" failure, a nonempty buffer becomes the final
clause, trimmed. -/
def endScan (level : Int) (buf : List Char) (fields : List String) :
    Option (List String) :=
  if level = 0 then
    some (if buf = [] then fields else fields ++ [(trimChars buf).asString])
  else none

/-- The character-by-character clause scanner of sqliteParseDDL
(orm/sqlite.go): walks the body of a CREATE TABLE statement tracking the
bracket nesting depth `level` and the active quote `q`, accumulating the
current clause in `buf` and the finished clauses in `fields`.  A quote
character immediately doubled is copied to the buffer verbatim; a comma at
depth 0 outside quotes ends a clause (trimmed of surrounding whitespace);
parentheses adjust the depth only outside quotes; `none` models the
"unbalanced brackets" error returns. -/
def scanClauses : List Char → Int → Option Char → List Char → List String →
    Option (List String)
  | [], level, _q, buf, fields => endScan level buf fields
  | [c], level, q, buf, fields =>
      -- Final character: in Go the lookahead `next` is the NUL rune here, so a
      -- quote character is never doubled; after this step the loop ends and
      -- the post-loop handling (endScan) runs.
      if isClauseQuote c then
        endScan level (buf ++ [c]) fields
      else
        match q with
        | some _ => endScan level (buf ++ [c]) fields
        | none =>
          if c = '(' then endScan (level + 1) (buf ++ [c]) fields
          else if c = ')' then
            if level - 1 < 0 then none
            else endScan (level - 1) (buf ++ [c]) fields
          else if level = 0 && c = ',' then
            endScan level [] (fields ++ [(trimChars buf).asString])
          else endScan level (buf ++ [c]) fields
  | c :: c2 :: rest, level, q, buf, fields =>
      if isClauseQuote c then
        if c2 = c then
          -- Escaped (doubled) quote: both characters are literal, the second
          -- is skipped; quote state and depth are unchanged.
          scanClauses rest level q (buf ++ [c, c]) fields
        else
          match q with
          | some _ => scanClauses (c2 :: rest) level none (buf ++ [c]) fields
          | none => scanClauses (c2 :: rest) level (some c) (buf ++ [c]) fields
      else
        match q with
        | some _ => scanClauses (c2 :: rest) level q (buf ++ [c]) fields
        | none =>
          if c = '(' then scanClauses (c2 :: rest) (level + 1) q (buf ++ [c]) fields
          else if c = ')' then
            if level - 1 < 0 then none
            else scanClauses (c2 :: rest) (level - 1) q (buf ++ [c]) fields
          else if level = 0 && c = ',' then
            scanClauses (c2 :: rest) level q [] (fields ++ [(trimChars buf).asString])
          else scanClauses (c2 :: rest) level q (buf ++ [c]) fields

/-- The table-name part `["`]?[\w\d]+["`]?` of sqliteParseDDL's header
pattern, matched at the front of `l` with Go's leftmost-first greedy
semantics: an optional opening quote (kept only when a word character
follows), a maximal nonempty run of word characters, an optional closing
quote.  Returns the matched text and the remainder. -/
def matchName (l : List Char) : Option (List Char × List Char) :=
  match l with
  | [] => none
  | c :: rest =>
    if isDDLQuote c then
      let w := rest.takeWhile isWordChar
      let r2 := rest.dropWhile isWordChar
      if w = [] then none
      else
        match r2 with
        | c2 :: r3 => if isDDLQuote c2 then some (c :: (w ++ [c2]), r3)
                      else some (c :: w, r2)
        | [] => some (c :: w, [])
    else
      let w := l.takeWhile isWordChar
      let r2 := l.dropWhile isWordChar
      if w = [] then none
      else
        match r2 with
        | c2 :: r3 => if isDDLQuote c2 then some (w ++ [c2], r3)
                      else some (w, r2)
        | [] => some (w, [])

/-- The optional body part `(?: \((.*)\))?` of the header pattern: a space
and an opening parenthesis, then a greedy `.*` (which cannot cross a
newline) followed by a closing parenthesis; the captured group is the text
up to the last `)` before the first newline.  `none` means the optional
group matches empty (the captured group is unset). -/
def matchBody (l : List Char) : Option (List Char) :=
  match l with
  | ' ' :: '(' :: rest =>
    let pre := rest.takeWhile (fun c => c ≠ '\n')
    match pre.reverse.dropWhile (fun c => c ≠ ')') with
    | [] => none
    | _ :: revBody => some revBody.reverse
  | _ => none

/-- sqliteParseDDL's header regexp
`(?i)(CREATE TABLE ["`]?[\w\d]+["`]?)(?: \((.*)\))?` tried at one position:
the literal `CREATE TABLE ` case-insensitively, the table name, then the
optional parenthesised body.  Returns (group 1, group 2), group 2 being `""`
when the optional part does not match, as in Go. -/
def matchHeaderAt (l : List Char) : Option (String × String) :=
  if (l.take 13).map Char.toLower = "create table ".toList then
    match matchName (l.drop 13) with
    | none => none
    | some (nm, rest) =>
      let g1 := ((l.take 13) ++ nm).asString
      match matchBody rest with
      | some body => some (g1, body.asString)
      | none => some (g1, "")
  else none

/-- Leftmost match of the header pattern over the whole input
(Go regexp.FindStringSubmatch). -/
def findHeader : List Char → Option (String × String)
  | [] => none
  | c :: rest =>
    match matchHeaderAt (c :: rest) with
    | some r => some r
    | none => findHeader rest

/-- The parsed DDL document of orm/sqlite.go: the `CREATE TABLE <name>`
head and the ordered top-level clauses. -/
structure sqliteDDL where
  head : String
  fields : List String
deriving Repr, DecidableEq

/-- sqliteParseDDL (orm/sqlite.go): match the header pattern, then split the
body into top-level clauses; `none` models both error returns ("invalid DDL"
and "unbalanced brackets"). -/
def sqliteParseDDL (sql : String) : Option sqliteDDL :=
  match findHeader sql.toList with
  | none => none
  | some (head, body) =>
    match scanClauses body.toList 0 none [] [] with
    | none => none
    | some fields => some ⟨head, fields⟩

/-- The leading-identifier pattern `^["`]?([\w\d]+)["`]?` of
sqliteDDL.getColumns, returning the captured identifier (Go's
leftmost-first semantics: an opening quote is consumed only when a word
character follows it). -/
def leadingIdent (l : List Char) : Option String :=
  match l with
  | [] => none
  | c :: rest =>
    if isDDLQuote c then
      let w := rest.takeWhile isWordChar
      if w = [] then none else some w.asString
    else
      let w := l.takeWhile isWordChar
      if w = [] then none else some w.asString

/-- sqliteDDL.getColumns (orm/sqlite.go): the backtick-quoted leading
identifiers of the clauses, skipping table-level PRIMARY KEY, CHECK and
CONSTRAINT clauses (matched case-insensitively via ToUpper). -/
def sqliteDDL.getColumns (p : sqliteDDL) : List String :=
  p.fields.filterMap fun f =>
    let fUpper := f.toList.map Char.toUpper
    if hasPrefixC fUpper "PRIMARY KEY".toList || hasPrefixC fUpper "CHECK".toList ||
        hasPrefixC fUpper "CONSTRAINT".toList then
      none
    else
      match leadingIdent f.toList with
      | some w => some ("`" ++ w ++ "`")
      | none => none

/-- The DDL statement of the design document's tokenization test case. -/
def ddlSample : String :=
  "CREATE TABLE \"t\" (`a` INT, `b` TEXT DEFAULT 'x,y', CONSTRAINT \"pk\" PRIMARY KEY(`a`))"

/-- The specification's description of the tokenizer state machine, tracking
only the bracket nesting depth and the active quote: `none` means the depth
went negative at some step, otherwise the final depth is returned.  A
doubled quote character is a literal (skipped), parentheses change the
depth only while no quote is active. -/
def depthRun : List Char → Int → Option Char → Option Int
  | [], level, _q => some level
  | [c], level, q =>
      if isClauseQuote c then some level
      else
        match q with
        | some _ => some level
        | none =>
          if c = '(' then some (level + 1)
          else if c = ')' then
            if level - 1 < 0 then none else some (level - 1)
          else some level
  | c :: c2 :: rest, level, q =>
      if isClauseQuote c then
        if c2 = c then depthRun rest level q
        else
          match q with
          | some _ => depthRun (c2 :: rest) level none
          | none => depthRun (c2 :: rest) level (some c)
      else
        match q with
        | some _ => depthRun (c2 :: rest) level q
        | none =>
          if c = '(' then depthRun (c2 :: rest) (level + 1) q
          else if c = ')' then
            if level - 1 < 0 then none else depthRun (c2 :: rest) (level - 1) q
          else depthRun (c2 :: rest) level q

/-! ### The recreate-table engine (orm/sqlite.go, Sqlite.recreateTable) -/

/-- The delimiter class `('|`|"| )` of recreateTable's table-name rewrite
pattern. -/
def isTableDelim (c : Char) : Bool := c = '\'' || c = '`' || c = '"' || c = ' '

/-- Match recreateTable's table-name pattern ` ('|`|"| )<table>('|`|"| ) `
at the front of `l` (the table name is interpolated into the pattern
verbatim, so this is literal matching — faithful for table names without
regexp metacharacters); on success return the remainder after the match. -/
def tableTokAt (table : List Char) (l : List Char) : Option (List Char) :=
  match l with
  | ' ' :: d1 :: rest =>
    if isTableDelim d1 && hasPrefixC rest table then
      match rest.drop table.length with
      | d2 :: ' ' :: rest2 => if isTableDelim d2 then some rest2 else none
      | _ => none
    else none
  | _ => none

/-- Go regexp.ReplaceAllString scanning: at each position try the matcher
`pat` (which, on a match, returns the remainder after the matched text); on
a match emit `rep` and continue after it, otherwise copy one character.
Both matchers used here consume at least one character on success, so with
`fuel` = input length the fuel never runs out before the input does, and the
`0` case is unreachable on the inputs used. -/
def regexReplaceAux (pat : List Char → Option (List Char)) (rep : List Char) :
    Nat → List Char → List Char
  | 0, l => l
  | fuel + 1, l =>
    match pat l with
    | some rest2 => rep ++ regexReplaceAux pat rep fuel rest2
    | none =>
      match l with
      | [] => []
      | c :: rest => c :: regexReplaceAux pat rep fuel rest

/-- The table-name rewrite of recreateTable (orm/sqlite.go): replace every
match of ` ('|`|"| )<table>('|`|"| ) ` by `` `<newName>` `` surrounded by
spaces. -/
def rewriteTableName (table newName : String) (s : String) : String :=
  (regexReplaceAux (tableTokAt table.toList)
    (' ' :: '`' :: (newName.toList ++ ['`', ' '])) s.toList.length s.toList).asString

/-- The left delimiter class `` (`|'|"| |[) `` of Sqlite.DropColumn's
column pattern. -/
def isColDelimL (c : Char) : Bool :=
  c = '`' || c = '\'' || c = '"' || c = ' ' || c = '['

/-- The right delimiter class `` (`|'|"| |]) `` of Sqlite.DropColumn's
column pattern. -/
def isColDelimR (c : Char) : Bool :=
  c = '`' || c = '\'' || c = '"' || c = ' ' || c = ']'

/-- Match Sqlite.DropColumn's pattern `(delim)<name>(delim) .*?,` at the
front of `l`: a delimiter, the column name (interpolated verbatim), a
delimiter, a space, then a lazy `.*?` (not crossing a newline) up to the
first comma; on success return the remainder after that comma. -/
def dropColTokAt (name : List Char) (l : List Char) : Option (List Char) :=
  match l with
  | d1 :: rest =>
    if isColDelimL d1 && hasPrefixC rest name then
      match rest.drop name.length with
      | d2 :: ' ' :: rest2 =>
        if isColDelimR d2 then
          let upto := rest2.takeWhile (fun c => c ≠ ',' && c ≠ '\n')
          match rest2.drop upto.length with
          | ',' :: rest3 => some rest3
          | _ => none
        else none
      | _ => none
    else none
  | [] => none

/-- Sqlite.DropColumn's raw-DDL mutation (orm/sqlite.go): delete every
match of the column pattern for `name`. -/
def dropColumnSQL (name : String) (rawDDL : String) : String :=
  (regexReplaceAux (dropColTokAt name.toList) [] rawDDL.toList.length rawDDL.toList).asString

/-- Go strings.Join with separator ",". -/
def joinComma : List String → String
  | [] => ""
  | [s] => s
  | s :: s2 :: rest => s ++ "," ++ joinComma (s2 :: rest)

/-- The recreate-table environment at the database boundary: the raw DDL
getRawDDL returns (`none` models its error) and whether Exec of each
statement succeeds. -/
structure RecreateEnv where
  rawDDL : Option String
  execOk : String → Bool

/-- The trace of a recreateTable run: the statements passed to Exec in
order, the ones that succeeded, and whether the procedure returned without
error. -/
structure RecreateTrace where
  attempted : List String
  executed : List String
  success : Bool
deriving Repr, DecidableEq

/-- Execute statements in order, stopping at the first failure (the Exec
calls of recreateTable, each followed by an early error return). -/
def runStmts (execOk : String → Bool) : List String → RecreateTrace
  | [] => ⟨[], [], true⟩
  | s :: rest =>
    if execOk s then
      let t := runStmts execOk rest
      ⟨s :: t.attempted, s :: t.executed, t.success⟩
    else ⟨[s], [], false⟩

/-- The four statements recreateTable executes, given the already mutated
and table-name-rewritten CREATE statement `createSQL` and the DDL document
`createDDL` parsed FROM IT (so the INSERT's column list reflects the
mutation): CREATE the temp table, copy the rows, DROP the original, RENAME
the temp table back. -/
def recreatePlan (table : String) (createSQL : String) (createDDL : sqliteDDL) :
    List String :=
  let newTableName := table ++ "__temp"
  let cols := joinComma createDDL.getColumns
  [createSQL,
   "INSERT INTO `" ++ newTableName ++ "`(" ++ cols ++ ") SELECT " ++
     cols ++ " FROM `" ++ table ++ "`",
   "DROP TABLE `" ++ table ++ "`",
   "ALTER TABLE `" ++ newTableName ++ "` RENAME TO `" ++ table ++ "`"]

/-- Sqlite.recreateTable (orm/sqlite.go).  `getCreateSQL` is the caller's
column mutation (DropColumn's or AlterColumn's closure; `none` models its
error return).  As in the source: fetch the raw DDL, apply the mutation TO
THE RAW DDL, rewrite the table-name token of the result to `<table>__temp`,
parse the rewritten DDL and compute the column list FROM IT, then execute
the four-statement plan in order, stopping at the first failure.  An empty
mutated SQL returns success with nothing executed. -/
def recreateTable (env : RecreateEnv) (table : String)
    (getCreateSQL : String → Option String) : RecreateTrace :=
  match env.rawDDL with
  | none => ⟨[], [], false⟩
  | some rawDDL =>
    match getCreateSQL rawDDL with
    | none => ⟨[], [], false⟩
    | some createSQL0 =>
      if createSQL0 = "" then ⟨[], [], true⟩
      else
        let createSQL := rewriteTableName table (table ++ "__temp") createSQL0
        match sqliteParseDDL createSQL with
        | none => ⟨[], [], false⟩
        | some createDDL =>
          runStmts env.execOk (recreatePlan table createSQL createDDL)

/-- Modelled from the spec (the database engine is an external collaborator
specified at its interface boundary): whether the original table still
exists after the first `n` statements of the four-statement recreate plan
[CREATE temp, INSERT ... SELECT, DROP original, RENAME temp to original]
have executed — CREATE and INSERT do not affect it, DROP removes it, RENAME
re-establishes the name. -/
def origTablePresent (n : Nat) : Bool := n < 3 || n == 4

/-! ### The automigrate engine (orm/sqlite.go, Sqlite.AutoMigrate) -/

/-- The column options carried by FieldOptions as MigrateColumn consumes
them: `none` models a nil pointer (size not reported / nullability not
specified). -/
structure FieldOptions where
  name : String
  size : Option Int
  notNull : Option Bool
deriving Repr, DecidableEq

/-- A desired (schema-reflected) field as AutoMigrate consumes it: its
column options plus the index flag. -/
structure MField where
  name : String
  size : Option Int
  notNull : Option Bool
  indexKey : Bool
deriving Repr, DecidableEq

/-- The desired field's embedded FieldOptions. -/
def MField.toOptions (f : MField) : FieldOptions := ⟨f.name, f.size, f.notNull⟩

/-- util.Int64Value: dereference, or zero for nil. -/
def int64Value (o : Option Int) : Int := o.getD 0

/-- util.BoolValue: dereference, or false for nil. -/
def boolValue (o : Option Bool) : Bool := o.getD false

/-- The alter decision of Sqlite.MigrateColumn (orm/sqlite.go): alter when
the actual column reports a size different from the desired one, or the
desired nullability is specified and differs from the actual one. -/
def migrateCond (expect actual : FieldOptions) : Bool :=
  (actual.size ≠ none && int64Value expect.size ≠ int64Value actual.size) ||
  (expect.notNull ≠ none && boolValue expect.notNull ≠ boolValue actual.notNull)

/-- A DDL operation of the sqlite driver's surface as AutoMigrate can issue
it (the drop operations exist on the driver but are shown by the theorems
never to be issued by AutoMigrate). -/
inductive DDLOp where
  | createTable
  | addColumn (name : String)
  | alterColumn (name : String)
  | createIndex (name : String)
  | dropColumn (name : String)
  | dropTable
deriving Repr, DecidableEq

/-- The automigrate environment at the database boundary: the catalog
answers (HasTable, the ColumnTypes snapshot, HasIndex) and whether each
issued DDL operation succeeds. -/
structure MigrateEnv where
  hasTable : Bool
  actual : List FieldOptions
  hasIndex : String → Bool
  execOk : DDLOp → Bool

/-- The trace of an AutoMigrate run: the issued operations in order and
whether the run returned without error. -/
structure MigrateTrace where
  ops : List DDLOp
  success : Bool
deriving Repr, DecidableEq

/-- Issue operations in order, stopping at the first failure (each failing
step of AutoMigrate returns its error at once). -/
def runOps (execOk : DDLOp → Bool) : List DDLOp → MigrateTrace
  | [] => ⟨[], true⟩
  | op :: rest =>
    if execOk op then
      let t := runOps execOk rest
      ⟨op :: t.ops, t.success⟩
    else ⟨[op], false⟩

/-- Sqlite.CreateTable's operation sequence (orm/sqlite.go): the CREATE
TABLE statement, then — through the LIFO deferred calls — CreateIndex for
each index-flagged field in reverse declaration order, each deferred call
skipped once an error occurred. -/
def createTableOps (expect : List MField) : List DDLOp :=
  DDLOp.createTable ::
    ((expect.filter (fun f => f.indexKey)).reverse.map (fun f => DDLOp.createIndex f.name))

/-- The column-reconciliation decision of AutoMigrate's main loop for one
desired field: add the column when no actual column has exactly (case
sensitively) its name, alter it when MigrateColumn reports a mismatch,
otherwise do nothing. -/
def reconcileOp (actual : List FieldOptions) (f : MField) : List DDLOp :=
  match actual.find? (fun a => a.name = f.name) with
  | none => [DDLOp.addColumn f.name]
  | some found =>
    if migrateCond f.toOptions found then [DDLOp.alterColumn f.name] else []

/-- The index pass of AutoMigrate: create an index for each index-flagged
desired field that has none. -/
def indexOps (hasIndex : String → Bool) (expect : List MField) : List DDLOp :=
  (expect.filter (fun f => f.indexKey && !hasIndex f.name)).map
    (fun f => DDLOp.createIndex f.name)

/-- Sqlite.AutoMigrate (orm/sqlite.go): when the table does not exist,
create it (with its indexes) and stop; otherwise reconcile each desired
column against the introspected snapshot, then create the missing indexes
— stopping at the first failing operation.  The desired field list (the
output of the reflection helper tableFields, which is outside this file's
sources) is a parameter. -/
def autoMigrate (env : MigrateEnv) (expect : List MField) : MigrateTrace :=
  if !env.hasTable then runOps env.execOk (createTableOps expect)
  else runOps env.execOk
    ((expect.map (reconcileOp env.actual)).flatten ++ indexOps env.hasIndex expect)

/-- Modelled from the spec (the database catalog is an external collaborator
specified at its interface boundary): the catalog state the next
automigrate run introspects after one successfully executed DDL operation.
CREATE TABLE makes the table exist with the desired columns; ADD COLUMN
appends the named desired column; ALTER COLUMN replaces the named columns
with the desired definition (introspection is assumed to report the
migrated size and nullability back); CREATE INDEX makes HasIndex true for
the name; the drop operations remove what they name. -/
def applyOp (expect : List MField) (env : MigrateEnv) : DDLOp → MigrateEnv
  | .createTable =>
    { env with hasTable := true, actual := expect.map MField.toOptions }
  | .addColumn n =>
    match expect.find? (fun f => f.name = n) with
    | some f => { env with actual := env.actual ++ [f.toOptions] }
    | none => env
  | .alterColumn n =>
    match expect.find? (fun f => f.name = n) with
    | some f =>
      { env with actual := env.actual.map (fun a => if a.name = n then f.toOptions else a) }
    | none => env
  | .createIndex n =>
    { env with hasIndex := fun m => m = n || env.hasIndex m }
  | .dropColumn n =>
    { env with actual := env.actual.filter (fun a => a.name ≠ n) }
  | .dropTable => { env with hasTable := false }

/-- The catalog state after a list of executed operations. -/
def applyOps (expect : List MField) (env : MigrateEnv) : List DDLOp → MigrateEnv
  | [] => env
  | op :: rest => applyOps expect (applyOp expect env op) rest

/-! ### Row binding (the orm Rows type of api.go) -/

/-- An error of the orm layer: the NotFound error built by
errors.NewNotFound, or any other error carrying its message (driver error
messages are abstracted into the string). -/
inductive OrmErr where
  | notFound (what : String)
  | msg (s : String)
deriving Repr, DecidableEq

/-- The message of an error as Go's err.Error() (the NotFound rendering
belongs to the external errors package and is abstracted here). -/
def OrmErr.render : OrmErr → String
  | .notFound w => w ++ " not found"
  | .msg s => s

/-- A Rows handle as Row/Rows consume it: the error stored at query time,
the ignore-not-found option, the row cap (maxRows) and the rows the cursor
will yield. -/
structure RowsState (ρ : Type) where
  err : Option OrmErr
  ignoreNotFound : Bool
  maxRows : Int
  resultRows : List ρ

/-- Rows.Row (api.go) against a destination of type δ: the stored error is
returned first; with at least one row, the first row is scanned into the
destination (`scan` models both the struct-mode scanRow path and the direct
rows.Scan path, returning the updated destination and the possible error);
an empty result set yields NewNotFound("object") unless ignore-not-found is
set, in which case the untouched destination is returned with success. -/
def rowFetch {ρ δ : Type} (p : RowsState ρ) (dst : δ)
    (scan : δ → ρ → δ × Option OrmErr) : δ × Option OrmErr :=
  match p.err with
  | some e => (dst, some e)
  | none =>
    match p.resultRows with
    | r :: _ => scan dst r
    | [] =>
      if !p.ignoreNotFound then (dst, some (OrmErr.notFound "object"))
      else (dst, none)

/-- The non-struct loop of Rows.Rows (api.go): scan each row directly,
append it to the accumulator, and stop silently once the appended count
`n` reaches the limit; a scan failure returns the wrapped error at once. -/
def rowsScalarLoop {ρ σ : Type} (limit : Int) (scan : ρ → Except OrmErr σ) :
    List ρ → Int → List σ → Except OrmErr (List σ)
  | [], _n, acc => .ok acc
  | r :: rest, n, acc =>
    match scan r with
    | .error e => .error (OrmErr.msg ("rows.scan() err: " ++ e.render))
    | .ok s =>
      if n + 1 ≥ limit then .ok (acc ++ [s])
      else rowsScalarLoop limit scan rest (n + 1) (acc ++ [s])

/-- The struct loop of Rows.Rows (api.go): bind each row through the binder
— `scan` returns the decoded element and the binder's error, WHICH THE
SOURCE DISCARDS (`b.scan(row)` is called without checking its result) — then
append and stop at the limit.  The loop itself can never fail. -/
def rowsStructLoop {ρ σ : Type} (limit : Int) (scan : ρ → σ × Option OrmErr) :
    List ρ → Int → List σ → List σ
  | [], _n, acc => acc
  | r :: rest, n, acc =>
    let s := (scan r).1
    if n + 1 ≥ limit then acc ++ [s]
    else rowsStructLoop limit scan rest (n + 1) (acc ++ [s])

/-- Rows.Rows (api.go) for a non-struct (scalar-slice) destination. -/
def rowsFetchScalar {ρ σ : Type} (p : RowsState ρ) (scan : ρ → Except OrmErr σ)
    (dst : List σ) : Except OrmErr (List σ) :=
  match p.err with
  | some e => .error e
  | none => rowsScalarLoop p.maxRows scan p.resultRows 0 dst

/-- Rows.Rows (api.go) for a struct destination: `genB` models genBinder
(whose failure is returned before the loop); the loop then appends one
decoded element per row, discarding per-row binder errors. -/
def rowsFetchStruct {ρ σ : Type} (p : RowsState ρ)
    (genB : Except OrmErr (ρ → σ × Option OrmErr)) (dst : List σ) :
    Except OrmErr (List σ) :=
  match p.err with
  | some e => .error e
  | none =>
    match genB with
    | .error e => .error e
    | .ok scan => .ok (rowsStructLoop p.maxRows scan p.resultRows 0 dst)

/-- The deferred decode captured by a transfer (api.go): no proxy, an epoch
integer destined for a time field, or raw JSON bytes whose decode outcome
is abstracted as a Bool. -/
inductive ProxyVal where
  | empty
  | epochInt (i : Int)
  | jsonBytes (decodeOk : Bool)
deriving Repr, DecidableEq

/-- transfer.unmarshal (api.go): a nil proxy and the epoch-integer path
return nil; the JSON path calls json.Unmarshal and, when it fails, only
logs the error (dlog) and still returns nil — the two branches of the
`if decodeOk` below return the same value precisely because the source
swallows the failure. -/
def transferUnmarshal : ProxyVal → Option OrmErr
  | .empty => none
  | .epochInt _ => none
  | .jsonBytes decodeOk => if decodeOk then none else none

/-- The first error of a list of step results (the transfer loop of
binder.scan returns the first non-nil unmarshal error). -/
def firstErr : List (Option OrmErr) → Option OrmErr
  | [] => none
  | some e :: _ => some e
  | none :: rest => firstErr rest

/-- binder.scan (api.go): build the per-field transfers (`bindRes` models
bind(), whose error propagates), run the underlying rows.Scan (`rawScan`,
whose failure is wrapped as "Scan() err: ..."), then run each transfer's
unmarshal and return its first error. -/
def binderScan (bindRes : Except OrmErr (List ProxyVal))
    (rawScan : Option OrmErr) : Option OrmErr :=
  match bindRes with
  | .error e => some e
  | .ok tran =>
    match rawScan with
    | some e => some (OrmErr.msg ("Scan() err: " ++ e.render))
    | none => firstErr (tran.map transferUnmarshal)

/-- Rows.scanRow's wrapping (api.go): a binder.scan failure comes back as
"rows.scan() err: ...". -/
def scanRowResult (bindRes : Except OrmErr (List ProxyVal))
    (rawScan : Option OrmErr) : Option OrmErr :=
  match binderScan bindRes rawScan with
  | some e => some (OrmErr.msg ("rows.scan() err: " ++ e.render))
  | none => none

/-! ### Bulk script execution (ormDB.ExecRows, api.go) -/

/-- Go strings.Split on newline: every piece kept, empties included. -/
def splitLines : List Char → List (List Char)
  | [] => [[]]
  | c :: rest =>
    match splitLines rest with
    | [] => [[]]
    | l :: ls => if c = '\n' then [] :: l :: ls else (c :: l) :: ls

/-- Whether the last character is the statement terminator `;`. -/
def lastIsSemi (l : List Char) : Bool :=
  match l.getLast? with
  | some c => c = ';'
  | none => false

/-- The line-oriented statement collector of ExecRows (api.go): empty lines
and `-- ` comment lines are skipped; inside a statement (`inStmt`) each
line is trimmed and appended after a space, and a trailing `;` finishes the
statement; outside one, a line whose first word (up to the first space,
which must exist at a positive index) is SET, CREATE, INSERT or DROP starts
a statement, finished at once when the line already ends in `;`. -/
def collectCmds : List (List Char) → List Char → Bool → List String → List String
  | [], _cmd, _inStmt, cmds => cmds
  | line :: rest, cmd, inStmt, cmds =>
    if line.length = 0 || hasPrefixC line "-- ".toList then
      collectCmds rest cmd inStmt cmds
    else if inStmt then
      if lastIsSemi (cmd ++ ' ' :: trimChars line) then
        collectCmds rest (cmd ++ ' ' :: trimChars line) false
          (cmds ++ [(cmd ++ ' ' :: trimChars line).asString])
      else collectCmds rest (cmd ++ ' ' :: trimChars line) true cmds
    else
      match line.findIdx? (fun c => c = ' ') with
      | none => collectCmds rest cmd false cmds
      | some 0 => collectCmds rest cmd false cmds
      | some (k + 1) =>
        if line.take (k + 1) = "SET".toList || line.take (k + 1) = "CREATE".toList ||
            line.take (k + 1) = "INSERT".toList || line.take (k + 1) = "DROP".toList then
          if lastIsSemi line then collectCmds rest line false (cmds ++ [line.asString])
          else collectCmds rest line true cmds
        else collectCmds rest cmd false cmds

/-- The statements ExecRows collects from a byte blob. -/
def execRowsCmds (blob : String) : List String :=
  collectCmds (splitLines blob.toList) [] false []

/-- The transaction boundary of ExecRows: whether Begin succeeds and
whether each statement's Exec succeeds. -/
structure TxEnv where
  beginOk : Bool
  execOk : String → Bool

/-- The final disposition of ExecRows's transaction. -/
inductive TxEnd where
  | committed
  | rolledBack
  | noTx
deriving Repr, DecidableEq

/-- The trace of an ExecRows run: the statements executed successfully
inside the transaction, the transaction's disposition and the returned
error. -/
structure ExecRowsTrace where
  executed : List String
  txEnd : TxEnd
  err : Option OrmErr
deriving Repr, DecidableEq

/-- Execute statements in order inside the transaction, returning the
successful prefix and the first failing statement, if any. -/
def execStmts (execOk : String → Bool) : List String → List String × Option String
  | [] => ([], none)
  | s :: rest =>
    if execOk s then
      let r := execStmts execOk rest
      (s :: r.1, r.2)
    else ([], some s)

/-- ormDB.ExecRows (api.go): Begin a transaction (whose failure is returned
with nothing run), collect the statements, execute them in order; the
deferred handler commits when the statement loop returned no error and
rolls back otherwise; an Exec failure is wrapped naming the offending SQL
text (the driver's own message is abstracted away). -/
def execRows (env : TxEnv) (blob : String) : ExecRowsTrace :=
  if !env.beginOk then ⟨[], .noTx, some (.msg "Begin() err")⟩
  else
    match execStmts env.execOk (execRowsCmds blob) with
    | (es, none) => ⟨es, .committed, none⟩
    | (es, some s) => ⟨es, .rolledBack, some (.msg ("sql " ++ s))⟩

/-- Modelled from the spec (transaction semantics of the external database):
a committed transaction publishes its executed statements, a rolled-back or
never-begun one publishes nothing. -/
def publishedEffects (t : ExecRowsTrace) : List String :=
  match t.txEnd with
  | .committed => t.executed
  | _ => []

/-! ### Connection opening (Open/open, api.go) -/

/-- The connection-open options (orm/options.go, DBOptions) with the fields
open() consumes; NewDefaultDBOptions fills maxRows and stringSize. -/
structure DBOptions where
  driver : String
  dsn : String
  ignoreNotFound : Bool
  withoutPing : Bool
  maxRows : Int
  stringSize : Int
deriving Repr, DecidableEq

/-- NewDefaultDBOptions (orm/options.go): row cap 1000, string size 255,
all other fields at their zero values. -/
def NewDefaultDBOptions : DBOptions :=
  ⟨"", "", false, false, 1000, 255⟩

/-- The driver reference held by an opened DB: the no-op fallback nonDriver
or the driver made by the registered factory for the dialect name. -/
inductive DriverRef where
  | nonDriver
  | factory (name : String)
deriving Repr, DecidableEq

/-- The sql-package boundary of open(): whether sql.Open and Ping
succeed. -/
structure OpenEnv where
  sqlOpenOk : Bool
  pingOk : Bool

/-- open (api.go): sql.Open first (failure returned), then Ping unless
disabled (failure closes and returns), then the DB is built with the
nonDriver fallback, replaced by the factory's driver only when the dialect
name is registered in dbFactories; an unregistered name is NOT an error. -/
def openDB (env : OpenEnv) (factories : List String) (opts : DBOptions) :
    Except OrmErr DriverRef :=
  if !env.sqlOpenOk then .error (.msg "sql.Open err")
  else if !opts.withoutPing && !env.pingOk then .error (.msg "ping err")
  else if factories.contains opts.driver then .ok (.factory opts.driver)
  else .ok .nonDriver

/-! ### Concrete inputs used by the claim theorems -/

/-- The parsed document of the design document's sample DDL. -/
def ddlSampleParsed : sqliteDDL :=
  ⟨"CREATE TABLE \"t\"",
   ["`a` INT", "`b` TEXT DEFAULT 'x,y'", "CONSTRAINT \"pk\" PRIMARY KEY(`a`)"]⟩

/-- A three-column table's raw DDL used to exercise recreateTable. -/
def rawSample : String := "CREATE TABLE `t` (`a` integer,`b` text,`c` integer)"

/-- Sqlite.DropColumn's mutation closure for a column named b. -/
def dropBMut : String → Option String := fun raw => some (dropColumnSQL "b" raw)

/-- A recreate environment over rawSample where every statement succeeds. -/
def envAllOk : RecreateEnv := ⟨some rawSample, fun _ => true⟩

/-- The parsed document of rawSample's mutated and renamed DDL. -/
def mutatedParsed : sqliteDDL :=
  ⟨"CREATE TABLE `t__temp`", ["`a` integer", "`c` integer"]⟩

/-- A bulk script blob with a comment line, a multi-line statement and a
single-line statement. -/
def blobSample : String :=
  "-- schema\nCREATE TABLE a (\n  x int\n);\nINSERT INTO a VALUES (1);"

/-- The keyword-prefix test for an ExecRows statement: it starts with one of
the four accepted verbs followed by a space. -/
def kwPrefix (l : List Char) : Bool :=
  hasPrefixC l "SET ".toList || hasPrefixC l "CREATE ".toList ||
  hasPrefixC l "INSERT ".toList || hasPrefixC l "DROP ".toList

/-- A well-formed collected statement: semicolon-terminated and starting
with an accepted verb. -/
def goodCmd (c : String) : Prop :=
  lastIsSemi c.toList = true ∧ kwPrefix c.toList = true

/-- DDL operations that neither touch the column named `n` nor recreate or
drop the whole table; the catalog's entry for `n` is preserved under
them. -/
def opSafeFor (n : String) : DDLOp → Prop
  | .addColumn m => m ≠ n
  | .alterColumn m => m ≠ n
  | .createIndex _ => True
  | _ => False

/-! ## Theorems -/

/-- C3: on the input `CREATE TABLE "t" (...)` of the design document,
sqliteParseDDL yields exactly 3 top-level clauses — the comma inside the
quoted default value 'x,y' is not a separator — and getColumns on the
parsed document returns the columns a and b (in the source's backtick-quoted
rendering), excluding the constraint clause. -/
theorem claim_C3_tokenization :
    sqliteParseDDL ddlSample = some ddlSampleParsed ∧
    ddlSampleParsed.fields.length = 3 ∧
    ddlSampleParsed.getColumns = ["`a`", "`b`"] :=
  ⟨by decide, by decide, by decide⟩

/-- C6: Rows.Row on an empty result set (with no stored error) returns the
NewNotFound error when ignore-not-found is false, and success when it is
true; in both cases the destination is returned completely unmodified. -/
theorem claim_C6_row_notfound {ρ δ : Type} (p : RowsState ρ) (dst : δ)
    (scan : δ → ρ → δ × Option OrmErr) (herr : p.err = none)
    (hrows : p.resultRows = []) :
    (p.ignoreNotFound = false →
      rowFetch p dst scan = (dst, some (OrmErr.notFound "object"))) ∧
    (p.ignoreNotFound = true → rowFetch p dst scan = (dst, none)) := by
  constructor <;> intro h <;> simp [rowFetch, herr, hrows, h]

/-- Witness for C6 at a concrete empty result set. -/
theorem claim_C6_witness :
    rowFetch (⟨none, false, 1000, []⟩ : RowsState Nat) (5 : Nat)
      (fun d _ => (d, none)) = (5, some (OrmErr.notFound "object")) :=
  (claim_C6_row_notfound _ _ _ rfl rfl).1 rfl

/-- C10: opening a connection with a dialect name registered by no factory
is not an error: provided sql.Open (and Ping, unless disabled) succeed,
open returns a working DB whose driver is the nonDriver fallback. -/
theorem claim_C10_unknown_dialect (env : OpenEnv) (factories : List String)
    (opts : DBOptions) (hreg : factories.contains opts.driver = false)
    (hopen : env.sqlOpenOk = true)
    (hping : opts.withoutPing = true ∨ env.pingOk = true) :
    openDB env factories opts = .ok DriverRef.nonDriver := by
  have hmem : opts.driver ∉ factories := by
    simpa [List.contains_iff_exists_mem_beq] using hreg
  rcases hping with h | h <;> simp [openDB, hopen, h, hmem]

/-- Witness for C10: an unregistered dialect name at a concrete registry. -/
theorem claim_C10_witness :
    openDB ⟨true, true⟩ ["mysql"] ⟨"sqlite3", "file.db", false, false, 1000, 255⟩ =
      .ok DriverRef.nonDriver :=
  claim_C10_unknown_dialect _ _ _ (by decide) rfl (Or.inr rfl)

theorem endScan_eq_none_iff (level : Int) (buf : List Char) (fields : List String) :
    endScan level buf fields = none ↔ ¬ level = 0 := by
  unfold endScan
  split <;> simp_all

theorem scan_none_iff (l : List Char) (level : Int) (q : Option Char)
    (buf : List Char) (fields : List String) :
    scanClauses l level q buf fields = none ↔ depthRun l level q ≠ some 0 := by
  induction l, level, q, buf, fields using scanClauses.induct <;>
    try simp_all [scanClauses, depthRun, endScan_eq_none_iff]
  case case8 => rw [if_neg (by tauto)]; simp_all [endScan_eq_none_iff]
  case case17 => rw [if_neg (by tauto)]; assumption

/-- C2: the CREATE TABLE tokenizer's clause scanner, stepwise: a doubled
quote character is copied as a literal (quote state, depth and clause list
unchanged); a comma separates clauses exactly at depth 0 with no active
quote, and is otherwise a literal; parentheses adjust the depth only while
no quote is active; scanning fails exactly when the depth goes negative
(a closing bracket at depth 0 outside quotes) or the depth is nonzero at
the end of the input (the iff against the depth-and-quote tracker
depthRun); and for every input whose header matches the CREATE TABLE
prefix pattern, sqliteParseDDL is this scanner run on the captured body. -/
theorem claim_C2_tokenizer_state_machine :
    (∀ (c : Char) (rest : List Char) (level : Int) (q : Option Char)
        (buf : List Char) (fields : List String), isClauseQuote c = true →
      scanClauses (c :: c :: rest) level q buf fields =
        scanClauses rest level q (buf ++ [c, c]) fields) ∧
    (∀ (rest : List Char) (buf : List Char) (fields : List String),
      scanClauses (',' :: rest) 0 none buf fields =
        scanClauses rest 0 none [] (fields ++ [(trimChars buf).asString])) ∧
    (∀ (rest : List Char) (level : Int) (qc : Char) (buf : List Char)
        (fields : List String),
      scanClauses (',' :: rest) level (some qc) buf fields =
        scanClauses rest level (some qc) (buf ++ [',']) fields) ∧
    (∀ (rest : List Char) (level : Int) (buf : List Char) (fields : List String),
      level ≠ 0 →
      scanClauses (',' :: rest) level none buf fields =
        scanClauses rest level none (buf ++ [',']) fields) ∧
    (∀ (rest : List Char) (level : Int) (buf : List Char) (fields : List String),
      scanClauses ('(' :: rest) level none buf fields =
        scanClauses rest (level + 1) none (buf ++ ['(']) fields) ∧
    (∀ (rest : List Char) (level : Int) (buf : List Char) (fields : List String),
      ¬ level - 1 < 0 →
      scanClauses (')' :: rest) level none buf fields =
        scanClauses rest (level - 1) none (buf ++ [')']) fields) ∧
    (∀ (rest : List Char) (level : Int) (qc : Char) (buf : List Char)
        (fields : List String),
      scanClauses ('(' :: rest) level (some qc) buf fields =
        scanClauses rest level (some qc) (buf ++ ['(']) fields ∧
      scanClauses (')' :: rest) level (some qc) buf fields =
        scanClauses rest level (some qc) (buf ++ [')']) fields) ∧
    (∀ (rest : List Char) (level : Int) (buf : List Char) (fields : List String),
      level - 1 < 0 →
      scanClauses (')' :: rest) level none buf fields = none) ∧
    (∀ (l : List Char) (level : Int) (q : Option Char) (buf : List Char)
        (fields : List String),
      scanClauses l level q buf fields = none ↔ depthRun l level q ≠ some 0) ∧
    (∀ (sql head body : String), findHeader sql.toList = some (head, body) →
      sqliteParseDDL sql =
        (scanClauses body.toList 0 none [] []).map (fun fs => ⟨head, fs⟩)) := by
  refine ⟨?_, ?_, ?_, ?_, ?_, ?_, ?_, ?_, scan_none_iff, ?_⟩
  · intro c rest level q buf fields h
    simp [scanClauses, h]
  · intro rest buf fields
    cases rest <;> rfl
  · intro rest level qc buf fields
    cases rest <;> rfl
  · intro rest level buf fields h
    have h1 : isClauseQuote ',' = false := by decide
    cases rest <;> simp [scanClauses, h1, h]
  · intro rest level buf fields
    cases rest <;> rfl
  · intro rest level buf fields h
    have h1 : isClauseQuote ')' = false := by decide
    cases rest <;> simp [scanClauses, h1, h]
  · intro rest level qc buf fields
    constructor <;> (cases rest <;> rfl)
  · intro rest level buf fields h
    have h1 : isClauseQuote ')' = false := by decide
    cases rest <;> simp [scanClauses, h1, h]
  · intro sql head body h
    unfold sqliteParseDDL
    rw [h]
    simp only [String.toList]
    cases hs : scanClauses body.data 0 none [] [] <;> simp [hs]

theorem runStmts_executed (ex : String → Bool) (ss : List String) :
    (runStmts ex ss).executed = ss.takeWhile ex := by
  induction ss with
  | nil => rfl
  | cons s rest ih => by_cases h : ex s <;> simp [runStmts, h, List.takeWhile_cons, ih]

theorem runStmts_success (ex : String → Bool) (ss : List String) :
    (runStmts ex ss).success = ss.all ex := by
  induction ss with
  | nil => rfl
  | cons s rest ih => by_cases h : ex s <;> simp [runStmts, h, ih]

theorem runStmts_attempted (ex : String → Bool) (ss : List String) :
    (runStmts ex ss).attempted = ss.take ((ss.takeWhile ex).length + 1) := by
  induction ss with
  | nil => rfl
  | cons s rest ih => by_cases h : ex s <;> simp [runStmts, h, List.takeWhile_cons, ih]

/-- C1 (amended): recreateTable fetches the raw DDL, applies the caller's
column mutation to it, THEN rewrites the table-name token of the mutated
text to the temporary name, parses the result and computes the column list
FROM THE MUTATED DDL; it then executes the CREATE, the
INSERT INTO temp(cols) SELECT cols FROM original, the DROP of the original
and the RENAME of the temporary table, in that order, aborting the
remaining statements at the first failure; when the failure occurs before
the DROP step the original table is still present. -/
theorem claim_C1_recreate_sequence (env : RecreateEnv) (table : String)
    (mu : String → Option String) (raw c0 : String) (ddl : sqliteDDL)
    (h1 : env.rawDDL = some raw) (h2 : mu raw = some c0) (h3 : c0 ≠ "")
    (h4 : sqliteParseDDL (rewriteTableName table (table ++ "__temp") c0) = some ddl) :
    recreateTable env table mu =
      runStmts env.execOk
        (recreatePlan table (rewriteTableName table (table ++ "__temp") c0) ddl) ∧
    (recreateTable env table mu).executed =
      (recreatePlan table (rewriteTableName table (table ++ "__temp") c0)
        ddl).takeWhile env.execOk ∧
    (recreateTable env table mu).attempted =
      (recreatePlan table (rewriteTableName table (table ++ "__temp") c0) ddl).take
        (((recreatePlan table (rewriteTableName table (table ++ "__temp") c0)
          ddl).takeWhile env.execOk).length + 1) ∧
    ((recreateTable env table mu).success = true ↔
      (recreatePlan table (rewriteTableName table (table ++ "__temp") c0)
        ddl).all env.execOk = true) ∧
    (env.execOk (rewriteTableName table (table ++ "__temp") c0) = false ∨
        env.execOk ("INSERT INTO `" ++ (table ++ "__temp") ++ "`(" ++
          joinComma ddl.getColumns ++ ") SELECT " ++ joinComma ddl.getColumns ++
          " FROM `" ++ table ++ "`") = false →
      (recreateTable env table mu).executed.length ≤ 2 ∧
      origTablePresent (recreateTable env table mu).executed.length = true) := by
  have e1 : recreateTable env table mu =
      runStmts env.execOk
        (recreatePlan table (rewriteTableName table (table ++ "__temp") c0) ddl) := by
    simp only [recreateTable, h1, h2, h4, if_neg h3]
  refine ⟨e1, by rw [e1, runStmts_executed], by rw [e1, runStmts_attempted],
    by rw [e1, runStmts_success], ?_⟩
  intro h5
  rw [e1, runStmts_executed]
  by_cases hA : env.execOk (rewriteTableName table (table ++ "__temp") c0)
  · rcases h5 with h | h
    · exact absurd hA (by simp [h])
    · simp [recreatePlan, List.takeWhile_cons, hA, h, origTablePresent]
  · simp [recreatePlan, List.takeWhile_cons, hA, origTablePresent]

/-- Counterexample to C1 as stated: on a three-column table, DropColumn's
recreate run builds the INSERT from the column list of the MUTATED DDL
(a, c) — the column list computed before the mutation (a, b, c) appears in
no executed statement, contrary to the claim's "column list computed before
the mutation was applied". -/
theorem claim_C1_counterexample :
    (sqliteParseDDL rawSample).map sqliteDDL.getColumns =
      some ["`a`", "`b`", "`c`"] ∧
    (recreateTable envAllOk "t" dropBMut).attempted =
      ["CREATE TABLE `t__temp` (`a` integer,`c` integer)",
       "INSERT INTO `t__temp`(`a`,`c`) SELECT `a`,`c` FROM `t`",
       "DROP TABLE `t`",
       "ALTER TABLE `t__temp` RENAME TO `t`"] ∧
    "INSERT INTO `t__temp`(`a`,`b`,`c`) SELECT `a`,`b`,`c` FROM `t`" ∉
      (recreateTable envAllOk "t" dropBMut).attempted :=
  ⟨by decide, by decide, by decide⟩

/-- Witness for C1's theorem: the hypotheses hold at the concrete DropColumn
run, whose four statements all succeed. -/
theorem claim_C1_witness :
    (recreateTable envAllOk "t" dropBMut).success = true := by
  have h := claim_C1_recreate_sequence envAllOk "t" dropBMut rawSample
    (dropColumnSQL "b" rawSample) mutatedParsed rfl rfl (by decide) (by decide)
  exact h.2.2.2.1.mpr (by decide)

theorem scalarLoop_ok {ρ σ : Type} (limit : Int) (f : ρ → σ) (rows : List ρ) :
    ∀ (n : Int) (acc : List σ), n < limit →
    rowsScalarLoop limit (fun r => .ok (f r)) rows n acc =
      .ok (acc ++ (rows.take (limit - n).toNat).map f) := by
  induction rows with
  | nil => intro n acc _; simp [rowsScalarLoop]
  | cons r rest ih =>
    intro n acc h
    simp only [rowsScalarLoop]
    by_cases h2 : n + 1 ≥ limit
    · have h3 : (limit - n).toNat = 1 := by omega
      simp [h2, h3]
    · rw [if_neg h2, ih (n + 1) (acc ++ [f r]) (by omega)]
      have h3 : (limit - n).toNat = (limit - (n + 1)).toNat + 1 := by omega
      simp [h3]

theorem structLoop_eq {ρ σ : Type} (limit : Int) (scan : ρ → σ × Option OrmErr)
    (rows : List ρ) :
    ∀ (n : Int) (acc : List σ), n < limit →
    rowsStructLoop limit scan rows n acc =
      acc ++ (rows.take (limit - n).toNat).map (fun r => (scan r).1) := by
  induction rows with
  | nil => intro n acc _; simp [rowsStructLoop]
  | cons r rest ih =>
    intro n acc h
    simp only [rowsStructLoop]
    by_cases h2 : n + 1 ≥ limit
    · have h3 : (limit - n).toNat = 1 := by omega
      simp [h2, h3]
    · rw [if_neg h2, ih (n + 1) (acc ++ [(scan r).1]) (by omega)]
      have h3 : (limit - n).toNat = (limit - (n + 1)).toNat + 1 := by omega
      simp [h3]

/-- C7 (amended): for every positive row cap — the default cap of
NewDefaultDBOptions is 1000 — both fetch loops of Rows.Rows return exactly
the first min(cap, available) rows, so never more than the cap, and
reaching the cap stops the fetch silently with success, not an error.
(A cap of zero or less instead behaves like a cap of one, see the
counterexample.) -/
theorem claim_C7_row_cap {ρ σ : Type} (p : RowsState ρ) (f : ρ → σ)
    (scan : ρ → σ × Option OrmErr)
    (herr : p.err = none) (hcap : 1 ≤ p.maxRows) :
    rowsFetchScalar p (fun r => .ok (f r)) [] =
      .ok ((p.resultRows.take p.maxRows.toNat).map f) ∧
    rowsFetchStruct p (.ok scan) [] =
      .ok ((p.resultRows.take p.maxRows.toNat).map (fun r => (scan r).1)) ∧
    ((p.resultRows.take p.maxRows.toNat).length : Int) ≤ p.maxRows ∧
    NewDefaultDBOptions.maxRows = 1000 := by
  refine ⟨?_, ?_, ?_, rfl⟩
  · simp only [rowsFetchScalar, herr]
    rw [scalarLoop_ok p.maxRows f p.resultRows 0 [] (by omega)]
    simp
  · simp only [rowsFetchStruct, herr]
    rw [structLoop_eq p.maxRows scan p.resultRows 0 [] (by omega)]
    simp
  · rw [List.length_take]
    have : (p.maxRows.toNat : Int) = p.maxRows := by omega
    omega

/-- Counterexample to C7 as stated: with a configured cap of 0 the loops
still append one row — the check `n >= limit` runs only after the first
append — so "never appends more than the configured max-rows cap" fails
for non-positive caps. -/
theorem claim_C7_counterexample :
    rowsFetchStruct (⟨none, false, 0, [7, 8]⟩ : RowsState Nat)
      (Except.ok (fun r => (r, none))) [] = Except.ok [7] ∧
    rowsFetchScalar (⟨none, false, 0, [7, 8]⟩ : RowsState Nat)
      (fun r => Except.ok r) [] = Except.ok [7] ∧
    (⟨none, false, 0, [7, 8]⟩ : RowsState Nat).maxRows = 0 :=
  ⟨rfl, rfl, rfl⟩

/-- Witness for C7 at cap 2 over three available rows: exactly two rows come
back, silently. -/
theorem claim_C7_witness :
    rowsFetchScalar (⟨none, false, 2, [3, 4, 5]⟩ : RowsState Nat)
      (fun r => Except.ok (r + 1)) [] = Except.ok [4, 5] := by
  have h := claim_C7_row_cap (⟨none, false, 2, [3, 4, 5]⟩ : RowsState Nat)
    (fun r => r + 1) (fun r => (r, none)) rfl (by decide)
  exact h.1.trans rfl

theorem firstErr_unmarshal_none (t : List ProxyVal) :
    firstErr (t.map transferUnmarshal) = none := by
  induction t with
  | nil => rfl
  | cons pv rest ih =>
    have h : transferUnmarshal pv = none := by cases pv <;> simp [transferUnmarshal]
    simp [h, firstErr, ih]

/-- C8 (amended): transfer.unmarshal returns nil on EVERY proxy — a JSON
decode failure is logged and swallowed, never surfaced; binder.scan fails
exactly on a bind error or an underlying rows.Scan error, the latter
wrapped as "Scan() err: ..." (and re-wrapped by scanRow as
"rows.scan() err: ..." — the wrapping itself names no column; any column
information comes only from the driver's own message inside e.render); and
the struct-destination multi-row loop discards per-row scan errors
entirely, returning success whatever they were. -/
theorem claim_C8_decode_errors :
    (∀ pv : ProxyVal, transferUnmarshal pv = none) ∧
    (∀ (t : List ProxyVal) (e : OrmErr),
      binderScan (.ok t) (some e) =
        some (OrmErr.msg ("Scan() err: " ++ e.render))) ∧
    (∀ t : List ProxyVal, binderScan (.ok t) none = none) ∧
    (∀ (e : OrmErr) (r : Option OrmErr), binderScan (.error e) r = some e) ∧
    (∀ (t : List ProxyVal) (e : OrmErr),
      scanRowResult (.ok t) (some e) =
        some (OrmErr.msg ("rows.scan() err: " ++ ("Scan() err: " ++ e.render)))) ∧
    (∀ {ρ σ : Type} (p : RowsState ρ) (scan : ρ → σ × Option OrmErr)
        (dst : List σ), p.err = none →
      ∃ res, rowsFetchStruct p (.ok scan) dst = .ok res) := by
  refine ⟨?_, ?_, ?_, ?_, ?_, ?_⟩
  · intro pv; cases pv <;> simp [transferUnmarshal]
  · intro t e; rfl
  · intro t; simp [binderScan, firstErr_unmarshal_none]
  · intro e r; rfl
  · intro t e; rfl
  · intro ρ σ p scan dst herr
    exact ⟨rowsStructLoop p.maxRows scan p.resultRows 0 dst,
      by simp [rowsFetchStruct, herr]⟩

/-- Counterexample to C8 as stated: a failing JSON decode produces a nil
error from transfer.unmarshal, and a failing per-row binder scan in the
struct multi-row path still yields a successful fetch with the row
appended — decode failures ARE silently swallowed. -/
theorem claim_C8_counterexample :
    transferUnmarshal (ProxyVal.jsonBytes false) = none ∧
    rowsFetchStruct (⟨none, false, 1000, [3]⟩ : RowsState Nat)
      (Except.ok (fun r => (r, some (OrmErr.msg "decode failure")))) [] =
      Except.ok [3] :=
  ⟨rfl, rfl⟩

theorem hasPrefixC_append (l p x : List Char) (h : hasPrefixC l p = true) :
    hasPrefixC (l ++ x) p = true := by
  induction p generalizing l with
  | nil => simp [hasPrefixC]
  | cons a as ih =>
    cases l with
    | nil => simp [hasPrefixC] at h
    | cons b bs =>
      simp [hasPrefixC] at h ⊢
      exact ⟨h.1, ih bs h.2⟩

theorem hasPrefixC_of_take (l p : List Char) (h : l.take p.length = p) :
    hasPrefixC l p = true := by
  induction p generalizing l with
  | nil => simp [hasPrefixC]
  | cons a as ih =>
    cases l with
    | nil => simp at h
    | cons b bs =>
      simp only [List.length_cons, List.take_succ_cons, List.cons.injEq] at h
      simp [hasPrefixC, h.1, ih bs h.2]

theorem kwPrefix_append (l x : List Char) (h : kwPrefix l = true) :
    kwPrefix (l ++ x) = true := by
  simp only [kwPrefix, Bool.or_eq_true] at h ⊢
  rcases h with ((h | h) | h) | h
  · exact Or.inl (Or.inl (Or.inl (hasPrefixC_append _ _ _ h)))
  · exact Or.inl (Or.inl (Or.inr (hasPrefixC_append _ _ _ h)))
  · exact Or.inl (Or.inr (hasPrefixC_append _ _ _ h))
  · exact Or.inr (hasPrefixC_append _ _ _ h)

theorem findIdx?_get (p : Char → Bool) (l : List Char) :
    ∀ (i : Nat), l.findIdx? p = some i →
    ∃ x, l.get? i = some x ∧ p x = true := by
  induction l with
  | nil => intro i h; simp [List.findIdx?] at h
  | cons a as ih =>
    intro i h
    rw [List.findIdx?_cons] at h
    by_cases hp : p a = true
    · rw [if_pos hp] at h
      cases h
      exact ⟨a, rfl, hp⟩
    · rw [if_neg hp, List.findIdx?_succ] at h
      simp only [Option.map_eq_some'] at h
      obtain ⟨j, hj, hji⟩ := h
      obtain ⟨x, hget, hx⟩ := ih j hj
      subst hji
      exact ⟨x, by simpa using hget, hx⟩

theorem kw_branch (line w : List Char) (k : Nat)
    (hget : line.get? (k + 1) = some ' ')
    (h : line.take (k + 1) = w) : hasPrefixC line (w ++ [' ']) = true := by
  have hlt : k + 1 < line.length := (List.get?_eq_some.mp hget).1
  have hwlen : w.length = k + 1 := by
    rw [← h, List.length_take]; omega
  apply hasPrefixC_of_take
  have hl2 : (w ++ [' ']).length = (k + 1) + 1 := by simp [hwlen]
  rw [hl2, List.take_succ, h, ← List.get?_eq_getElem?, hget]
  rfl

theorem kwPrefix_of_keyword (line : List Char) (k : Nat)
    (hidx : line.findIdx? (fun c => c = ' ') = some (k + 1))
    (hw : (line.take (k + 1) = "SET".toList ∨ line.take (k + 1) = "CREATE".toList ∨
           line.take (k + 1) = "INSERT".toList ∨ line.take (k + 1) = "DROP".toList)) :
    kwPrefix line = true := by
  obtain ⟨x, hget, hx⟩ := findIdx?_get _ _ _ hidx
  have hsp : x = ' ' := by simpa using hx
  subst hsp
  simp only [kwPrefix, Bool.or_eq_true]
  rcases hw with h | h | h | h
  · exact Or.inl (Or.inl (Or.inl (kw_branch _ _ _ hget h)))
  · exact Or.inl (Or.inl (Or.inr (kw_branch _ _ _ hget h)))
  · exact Or.inl (Or.inr (kw_branch _ _ _ hget h))
  · exact Or.inr (kw_branch _ _ _ hget h)

theorem collect_good_aux (lines : List (List Char)) :
    ∀ (cmd : List Char) (inStmt : Bool) (cmds : List String),
    (∀ c ∈ cmds, goodCmd c) → (inStmt = true → kwPrefix cmd = true) →
    ∀ c ∈ collectCmds lines cmd inStmt cmds, goodCmd c := by
  induction lines with
  | nil =>
    intro cmd inStmt cmds hc _ c hmem
    exact hc c hmem
  | cons line rest ih =>
    intro cmd inStmt cmds hc hk c hmem
    rw [collectCmds] at hmem
    split at hmem
    · exact ih _ _ _ hc hk c hmem
    · split at hmem
      · -- inStmt branch
        rename_i hskip hin
        split at hmem
        · -- statement finished with a semicolon
          rename_i hsemi
          refine ih _ _ _ ?_ (by simp) c hmem
          intro d hd
          rcases List.mem_append.mp hd with hd | hd
          · exact hc d hd
          · have hde : d = (cmd ++ ' ' :: trimChars line).asString := by
              simpa using hd
            subst hde
            exact ⟨hsemi, kwPrefix_append _ _ (hk hin)⟩
        · rename_i hsemi
          exact ih _ _ _ hc (fun _ => kwPrefix_append _ _ (hk hin)) c hmem
      · -- start-of-statement branch
        split at hmem
        · exact ih _ _ _ hc (by simp) c hmem
        · exact ih _ _ _ hc (by simp) c hmem
        · -- first space at a positive index
          rename_i hskip hin k hidx
          split at hmem
          · -- an accepted keyword starts the line
            rename_i hkw
            have hkwp : kwPrefix line = true := by
              apply kwPrefix_of_keyword line k hidx
              have h2 := hkw
              simp only [Bool.or_eq_true, decide_eq_true_eq] at h2
              tauto
            split at hmem
            · rename_i hsemi
              refine ih _ _ _ ?_ (by simp) c hmem
              intro d hd
              rcases List.mem_append.mp hd with hd | hd
              · exact hc d hd
              · have hde : d = line.asString := by simpa using hd
                subst hde
                exact ⟨hsemi, hkwp⟩
            · rename_i hsemi
              exact ih _ _ _ hc (fun _ => hkwp) c hmem
          · exact ih _ _ _ hc (by simp) c hmem

theorem execStmts_spec (ex : String → Bool) (cmds : List String) :
    execStmts ex cmds = (cmds.takeWhile ex, (cmds.dropWhile ex).head?) := by
  induction cmds with
  | nil => rfl
  | cons s rest ih =>
    by_cases h : ex s <;>
      simp [execStmts, h, List.takeWhile_cons, List.dropWhile_cons, ih]

/-- C9: ExecRows collects exactly the semicolon-terminated statements
starting with SET/CREATE/INSERT/DROP from the line-oriented blob (empty and
"-- " comment lines skipped), runs them in order inside one transaction:
a Begin failure runs nothing; the executed statements are the successful
prefix; the transaction commits exactly when every statement succeeds and
the full statement list was executed (its effects published), and rolls
back on any failure, publishing no effects and surfacing an error naming
the offending SQL. -/
theorem claim_C9_exec_transaction (env : TxEnv) (blob : String) :
    (env.beginOk = false →
      execRows env blob = ⟨[], .noTx, some (.msg "Begin() err")⟩) ∧
    (env.beginOk = true →
      (execRows env blob).executed = (execRowsCmds blob).takeWhile env.execOk) ∧
    (env.beginOk = true →
      ((execRows env blob).txEnd = .committed ↔
        (execRowsCmds blob).all env.execOk = true)) ∧
    (env.beginOk = true → (execRowsCmds blob).all env.execOk = true →
      execRows env blob = ⟨execRowsCmds blob, .committed, none⟩ ∧
      publishedEffects (execRows env blob) = execRowsCmds blob) ∧
    (env.beginOk = true → ¬ (execRowsCmds blob).all env.execOk = true →
      (execRows env blob).txEnd = .rolledBack ∧
      publishedEffects (execRows env blob) = [] ∧
      (execRows env blob).err ≠ none) ∧
    (∀ c ∈ execRowsCmds blob, lastIsSemi c.toList = true ∧ kwPrefix c.toList = true) := by
  have hcmds : ∀ c ∈ execRowsCmds blob, goodCmd c :=
    collect_good_aux _ _ _ _ (by simp) (by simp)
  have key : (execRowsCmds blob).all env.execOk = true ↔
      ((execRowsCmds blob).dropWhile env.execOk).head? = none := by
    rw [List.all_eq_true, List.head?_eq_none_iff, List.dropWhile_eq_nil_iff]
  refine ⟨?_, ?_, ?_, ?_, ?_, fun c hc => hcmds c hc⟩
  · intro h; simp [execRows, h]
  · intro h
    cases hd : ((execRowsCmds blob).dropWhile env.execOk).head? <;>
      simp [execRows, h, execStmts_spec, hd]
  · intro h
    cases hd : ((execRowsCmds blob).dropWhile env.execOk).head? <;>
      simp [execRows, h, execStmts_spec, hd, key]
  · intro h hall
    have hd : ((execRowsCmds blob).dropWhile env.execOk).head? = none := key.mp hall
    have htw : (execRowsCmds blob).takeWhile env.execOk = execRowsCmds blob := by
      rw [List.takeWhile_eq_self_iff]
      exact fun x hx => (List.all_eq_true.mp hall) x hx
    constructor
    · simp [execRows, h, execStmts_spec, hd, htw]
    · simp [execRows, h, execStmts_spec, hd, htw, publishedEffects]
  · intro h hall
    have hd : ((execRowsCmds blob).dropWhile env.execOk).head? ≠ none := by
      intro hc; exact hall (key.mpr hc)
    cases hde : ((execRowsCmds blob).dropWhile env.execOk).head? with
    | none => exact absurd hde hd
    | some s =>
      refine ⟨?_, ?_, ?_⟩ <;> simp [execRows, h, execStmts_spec, hde, publishedEffects]

/-- Witness for C9 at a concrete blob whose statements all succeed. -/
theorem claim_C9_witness :
    publishedEffects (execRows ⟨true, fun _ => true⟩ blobSample) =
      ["CREATE TABLE a ( x int );", "INSERT INTO a VALUES (1);"] := by
  have h := (claim_C9_exec_transaction ⟨true, fun _ => true⟩ blobSample).2.2.2.1
    rfl (by decide)
  exact h.2.trans (by decide)

theorem runOps_all (ex : DDLOp → Bool) (ops : List DDLOp)
    (h : ∀ op, ex op = true) : runOps ex ops = ⟨ops, true⟩ := by
  induction ops with
  | nil => rfl
  | cons op rest ih => simp [runOps, h op, ih]

theorem nodup_name_inj {l : List MField} (h : (l.map MField.name).Nodup)
    {f g : MField} (hf : f ∈ l) (hg : g ∈ l) (heq : f.name = g.name) :
    f = g := by
  induction l with
  | nil => cases hf
  | cons a as ih =>
    rw [List.map_cons, List.nodup_cons] at h
    rcases List.mem_cons.mp hf with rfl | hf'
    · rcases List.mem_cons.mp hg with rfl | hg'
      · rfl
      · exact absurd (heq ▸ List.mem_map_of_mem MField.name hg') h.1
    · rcases List.mem_cons.mp hg with rfl | hg'
      · exact absurd (heq ▸ List.mem_map_of_mem MField.name hf') h.1
      · exact ih h.2 hf' hg'

theorem mem_reconcileOp {actual : List FieldOptions} {f : MField} {op : DDLOp}
    (h : op ∈ reconcileOp actual f) :
    op = DDLOp.addColumn f.name ∨ op = DDLOp.alterColumn f.name := by
  unfold reconcileOp at h
  rcases hfind : actual.find? (fun a => a.name = f.name) with _ | a
  · rw [hfind] at h
    simp at h
    exact Or.inl h
  · rw [hfind] at h
    by_cases hc : migrateCond f.toOptions a = true
    · simp [hc] at h
      exact Or.inr h
    · simp [hc] at h

theorem reconcile_none {actual : List FieldOptions} {f : MField}
    (h : actual.find? (fun a => a.name = f.name) = none) :
    reconcileOp actual f = [DDLOp.addColumn f.name] := by
  simp [reconcileOp, h]

theorem reconcile_some {actual : List FieldOptions} {f : MField}
    {a : FieldOptions} (h : actual.find? (fun b => b.name = f.name) = some a) :
    reconcileOp actual f =
      (if migrateCond f.toOptions a then [DDLOp.alterColumn f.name] else []) := by
  simp [reconcileOp, h]

theorem mem_createTableOps {expect : List MField} {op : DDLOp} :
    op ∈ createTableOps expect ↔
      op = DDLOp.createTable ∨
      ∃ f ∈ expect, f.indexKey = true ∧ op = DDLOp.createIndex f.name := by
  simp only [createTableOps, List.mem_cons, List.mem_map, List.mem_reverse,
    List.mem_filter]
  constructor
  · rintro (rfl | ⟨f, ⟨hf, hk⟩, rfl⟩)
    · exact Or.inl rfl
    · exact Or.inr ⟨f, hf, hk, rfl⟩
  · rintro (rfl | ⟨f, hf, hk, rfl⟩)
    · exact Or.inl rfl
    · exact Or.inr ⟨f, ⟨hf, hk⟩, rfl⟩

theorem mem_indexOps {hasIndex : String → Bool} {expect : List MField}
    {op : DDLOp} :
    op ∈ indexOps hasIndex expect ↔
      ∃ f ∈ expect, f.indexKey = true ∧ hasIndex f.name = false ∧
        op = DDLOp.createIndex f.name := by
  simp only [indexOps, List.mem_map, List.mem_filter, Bool.and_eq_true,
    Bool.not_eq_true']
  constructor
  · rintro ⟨f, ⟨hf, hk, hi⟩, rfl⟩
    exact ⟨f, hf, hk, hi, rfl⟩
  · rintro ⟨f, hf, hk, hi, rfl⟩
    exact ⟨f, ⟨hf, hk, hi⟩, rfl⟩


/-- C4: AutoMigrate creates a missing table (with all its indexes) and
stops; on an existing table it adds each desired column absent from the
introspected snapshot (presence decided by exact case-sensitive name
equality), alters a present column exactly when MigrateColumn reports a
size/nullability mismatch, then creates an index for every index-flagged
desired column lacking one; it never issues a drop, and never touches a
column name outside the desired schema. -/
theorem claim_C4_automigrate (env : MigrateEnv) (expect : List MField)
    (hok : ∀ op, env.execOk op = true)
    (hnd : (expect.map MField.name).Nodup) :
    (env.hasTable = false →
      autoMigrate env expect = ⟨createTableOps expect, true⟩) ∧
    (env.hasTable = true →
      autoMigrate env expect =
        ⟨(expect.map (reconcileOp env.actual)).flatten ++
          indexOps env.hasIndex expect, true⟩) ∧
    (∀ f ∈ expect, env.hasTable = true →
      env.actual.find? (fun a => a.name = f.name) = none →
      DDLOp.addColumn f.name ∈ (autoMigrate env expect).ops) ∧
    (∀ f ∈ expect, env.hasTable = true →
      ∀ a, env.actual.find? (fun b => b.name = f.name) = some a →
      (migrateCond f.toOptions a = true →
        DDLOp.alterColumn f.name ∈ (autoMigrate env expect).ops) ∧
      (migrateCond f.toOptions a = false →
        DDLOp.alterColumn f.name ∉ (autoMigrate env expect).ops ∧
        DDLOp.addColumn f.name ∉ (autoMigrate env expect).ops)) ∧
    (∀ f ∈ expect, env.hasTable = true → f.indexKey = true →
      env.hasIndex f.name = false →
      DDLOp.createIndex f.name ∈ (autoMigrate env expect).ops) ∧
    (∀ op ∈ (autoMigrate env expect).ops,
      op ≠ DDLOp.dropTable ∧ ∀ n, op ≠ DDLOp.dropColumn n) ∧
    (∀ n, n ∉ expect.map MField.name →
      DDLOp.addColumn n ∉ (autoMigrate env expect).ops ∧
      DDLOp.alterColumn n ∉ (autoMigrate env expect).ops ∧
      DDLOp.createIndex n ∉ (autoMigrate env expect).ops) := by
  have htabF : env.hasTable = false →
      autoMigrate env expect = ⟨createTableOps expect, true⟩ := by
    intro h
    simp [autoMigrate, h, runOps_all _ _ hok]
  have htabT : env.hasTable = true →
      autoMigrate env expect =
        ⟨(expect.map (reconcileOp env.actual)).flatten ++
          indexOps env.hasIndex expect, true⟩ := by
    intro h
    simp [autoMigrate, h, runOps_all _ _ hok]
  have hopsmem : ∀ op ∈ (autoMigrate env expect).ops,
      op ∈ createTableOps expect ∨
      op ∈ (expect.map (reconcileOp env.actual)).flatten ∨
      op ∈ indexOps env.hasIndex expect := by
    intro op hop
    cases htab : env.hasTable
    · rw [htabF htab] at hop
      exact Or.inl hop
    · rw [htabT htab] at hop
      exact Or.inr (List.mem_append.mp hop)
  have hname : ∀ op ∈ (autoMigrate env expect).ops, ∀ n,
      op = DDLOp.addColumn n ∨ op = DDLOp.alterColumn n ∨
        op = DDLOp.createIndex n →
      n ∈ expect.map MField.name := by
    intro op hop n hcase
    rcases hopsmem op hop with hmem | hmem | hmem
    · rcases mem_createTableOps.mp hmem with rfl | ⟨g, hg, _, rfl⟩
      · rcases hcase with h | h | h <;> simp at h
      · rcases hcase with h | h | h <;> simp at h
        exact h ▸ List.mem_map_of_mem MField.name hg
    · rw [List.mem_flatten] at hmem
      obtain ⟨l, hl, hop2⟩ := hmem
      rw [List.mem_map] at hl
      obtain ⟨g, hg, rfl⟩ := hl
      rcases mem_reconcileOp hop2 with rfl | rfl <;>
        rcases hcase with h | h | h <;> simp at h <;>
        exact h ▸ List.mem_map_of_mem MField.name hg
    · obtain ⟨g, hg, _, _, rfl⟩ := mem_indexOps.mp hmem
      rcases hcase with h | h | h <;> simp at h
      exact h ▸ List.mem_map_of_mem MField.name hg
  refine ⟨htabF, htabT, ?_, ?_, ?_, ?_, ?_⟩
  · intro f hf htab hfind
    rw [htabT htab]
    apply List.mem_append_left
    rw [List.mem_flatten]
    refine ⟨reconcileOp env.actual f, List.mem_map_of_mem _ hf, ?_⟩
    rw [reconcile_none hfind]
    simp
  · intro f hf htab a hfind
    constructor
    · intro hcond
      rw [htabT htab]
      apply List.mem_append_left
      rw [List.mem_flatten]
      refine ⟨reconcileOp env.actual f, List.mem_map_of_mem _ hf, ?_⟩
      rw [reconcile_some hfind, if_pos hcond]
      simp
    · intro hcond
      rw [htabT htab]
      constructor
      · intro hmem
        rcases List.mem_append.mp hmem with hmem | hmem
        · rw [List.mem_flatten] at hmem
          obtain ⟨l, hl, hop⟩ := hmem
          rw [List.mem_map] at hl
          obtain ⟨g, hg, rfl⟩ := hl
          rcases mem_reconcileOp hop with he | he
          · simp at he
          · have hn : g.name = f.name := by
              simpa using he.symm
            have hgf : g = f := nodup_name_inj hnd hg hf hn
            rw [hgf, reconcile_some hfind, hcond] at hop
            simp at hop
        · obtain ⟨g, _, _, _, he⟩ := mem_indexOps.mp hmem
          simp at he
      · intro hmem
        rcases List.mem_append.mp hmem with hmem | hmem
        · rw [List.mem_flatten] at hmem
          obtain ⟨l, hl, hop⟩ := hmem
          rw [List.mem_map] at hl
          obtain ⟨g, hg, rfl⟩ := hl
          rcases mem_reconcileOp hop with he | he
          · have hn : g.name = f.name := by
              simpa using he.symm
            have hgf : g = f := nodup_name_inj hnd hg hf hn
            rw [hgf, reconcile_some hfind] at hop
            by_cases hc : migrateCond f.toOptions a = true <;>
              simp [hc] at hop
          · simp at he
        · obtain ⟨g, _, _, _, he⟩ := mem_indexOps.mp hmem
          simp at he
  · intro f hf htab hkey hidx
    rw [htabT htab]
    apply List.mem_append_right
    rw [mem_indexOps]
    exact ⟨f, hf, hkey, hidx, rfl⟩
  · intro op hop
    rcases hopsmem op hop with hmem | hmem | hmem
    · rcases mem_createTableOps.mp hmem with rfl | ⟨g, _, _, rfl⟩ <;> simp
    · rw [List.mem_flatten] at hmem
      obtain ⟨l, hl, hop2⟩ := hmem
      rw [List.mem_map] at hl
      obtain ⟨g, hg, rfl⟩ := hl
      rcases mem_reconcileOp hop2 with rfl | rfl <;> simp
    · obtain ⟨g, _, _, _, rfl⟩ := mem_indexOps.mp hmem
      simp
  · intro n hn
    exact ⟨fun hmem => hn (hname _ hmem n (Or.inl rfl)),
      fun hmem => hn (hname _ hmem n (Or.inr (Or.inl rfl))),
      fun hmem => hn (hname _ hmem n (Or.inr (Or.inr rfl)))⟩

theorem applyOps_append (expect : List MField) (xs ys : List DDLOp) :
    ∀ env, applyOps expect env (xs ++ ys) =
      applyOps expect (applyOps expect env xs) ys := by
  induction xs with
  | nil => intro env; rfl
  | cons op rest ih => intro env; simp [applyOps, ih]

theorem applyOp_hasIndex (expect : List MField) (env : MigrateEnv)
    (op : DDLOp) (m : String) :
    ((applyOp expect env op).hasIndex m = true ↔
      (env.hasIndex m = true ∨ op = DDLOp.createIndex m)) := by
  cases op with
  | createTable => simp [applyOp]
  | dropTable => simp [applyOp]
  | dropColumn n => simp [applyOp]
  | addColumn n =>
    simp only [applyOp]
    cases expect.find? (fun f => f.name = n) <;> simp
  | alterColumn n =>
    simp only [applyOp]
    cases expect.find? (fun f => f.name = n) <;> simp
  | createIndex n =>
    simp only [applyOp, DDLOp.createIndex.injEq]
    constructor
    · intro h
      rcases (Bool.or_eq_true _ _).mp h with h | h
      · exact Or.inr (by simpa [eq_comm] using h)
      · exact Or.inl h
    · intro h
      rcases h with h | h
      · simp [h]
      · simp [h]

theorem applyOps_hasIndex (expect : List MField) (ops : List DDLOp)
    (m : String) : ∀ env,
    ((applyOps expect env ops).hasIndex m = true ↔
      (env.hasIndex m = true ∨ DDLOp.createIndex m ∈ ops)) := by
  induction ops with
  | nil => intro env; simp [applyOps]
  | cons op rest ih =>
    intro env
    rw [applyOps, ih, applyOp_hasIndex, List.mem_cons]
    constructor
    · rintro ((h | h) | h)
      · exact Or.inl h
      · exact Or.inr (Or.inl h.symm)
      · exact Or.inr (Or.inr h)
    · rintro (h | h | h)
      · exact Or.inl (Or.inl h)
      · exact Or.inl (Or.inr h.symm)
      · exact Or.inr h

theorem find?_replace_other (m n : String) (r : FieldOptions)
    (hr : r.name = m) (hmn : m ≠ n) : ∀ (l : List FieldOptions),
    (l.map (fun a => if a.name = m then r else a)).find?
        (fun a => a.name = n) =
      l.find? (fun a => a.name = n) := by
  intro l
  induction l with
  | nil => rfl
  | cons a as ih =>
    by_cases ham : a.name = m
    · rw [List.map_cons, if_pos ham, List.find?_cons_of_neg, List.find?_cons_of_neg]
      · exact ih
      · simp [ham, hmn]
      · simp [hr, hmn]
    · rw [List.map_cons, if_neg ham]
      by_cases han : a.name = n
      · rw [List.find?_cons_of_pos _ (by simp [han]), List.find?_cons_of_pos _ (by simp [han])]
      · rw [List.find?_cons_of_neg _ (by simp [han]), List.find?_cons_of_neg _ (by simp [han])]
        exact ih

theorem find?_replace_self (m : String) (r : FieldOptions) (hr : r.name = m) :
    ∀ (l : List FieldOptions) (a : FieldOptions),
    l.find? (fun x => x.name = m) = some a →
    (l.map (fun x => if x.name = m then r else x)).find?
        (fun x => x.name = m) = some r := by
  intro l
  induction l with
  | nil => intro a h; cases h
  | cons b bs ih =>
    intro a h
    by_cases hbm : b.name = m
    · rw [List.map_cons, if_pos hbm, List.find?_cons_of_pos _ (by simp [hr])]
    · rw [List.find?_cons_of_neg _ (by simp [hbm])] at h
      rw [List.map_cons, if_neg hbm, List.find?_cons_of_neg _ (by simp [hbm])]
      exact ih a h

theorem applyOp_find_safe (expect : List MField) (env : MigrateEnv)
    (op : DDLOp) (n : String) (h : opSafeFor n op) :
    (applyOp expect env op).actual.find? (fun a => a.name = n) =
      env.actual.find? (fun a => a.name = n) := by
  cases op with
  | createTable => exact absurd h (by simp [opSafeFor])
  | dropTable => exact absurd h (by simp [opSafeFor])
  | dropColumn m => exact absurd h (by simp [opSafeFor])
  | createIndex m => rfl
  | addColumn m =>
    have hmn : m ≠ n := h
    simp only [applyOp]
    cases hf : expect.find? (fun f => f.name = m) with
    | none => rfl
    | some f =>
      have hfm : f.name = m := by simpa using List.find?_some hf
      rw [List.find?_append]
      have h2 : [MField.toOptions f].find? (fun a => a.name = n) = none := by
        rw [List.find?_cons_of_neg] <;> simp [MField.toOptions, hfm, hmn]
      rw [h2]
      cases env.actual.find? (fun a => a.name = n) <;> rfl
  | alterColumn m =>
    have hmn : m ≠ n := h
    simp only [applyOp]
    cases hf : expect.find? (fun f => f.name = m) with
    | none => rfl
    | some f =>
      have hfm : f.name = m := by simpa using List.find?_some hf
      exact find?_replace_other m n f.toOptions (by simp [MField.toOptions, hfm]) hmn _

theorem applyOps_find_safe (expect : List MField) (ops : List DDLOp)
    (n : String) (h : ∀ op ∈ ops, opSafeFor n op) : ∀ env,
    (applyOps expect env ops).actual.find? (fun a => a.name = n) =
      env.actual.find? (fun a => a.name = n) := by
  induction ops with
  | nil => intro env; rfl
  | cons op rest ih =>
    intro env
    rw [applyOps, ih (fun o ho => h o (List.mem_cons_of_mem _ ho)),
      applyOp_find_safe expect env op n (h op (List.mem_cons_self _ _))]

theorem find?_expect_self (expect : List MField) (f : MField)
    (hnd : (expect.map MField.name).Nodup) (hf : f ∈ expect) :
    expect.find? (fun g => g.name = f.name) = some f := by
  induction expect with
  | nil => cases hf
  | cons a as ih =>
    rw [List.map_cons, List.nodup_cons] at hnd
    rcases List.mem_cons.mp hf with rfl | hf'
    · rw [List.find?_cons_of_pos _ (by simp)]
    · have hne : a.name ≠ f.name := by
        intro he
        exact hnd.1 (he ▸ List.mem_map_of_mem MField.name hf')
      rw [List.find?_cons_of_neg _ (by simp [hne])]
      exact ih hnd.2 hf'

theorem find?_expect_toOptions (expect : List MField) (f : MField)
    (hnd : (expect.map MField.name).Nodup) (hf : f ∈ expect) :
    (expect.map MField.toOptions).find? (fun a => a.name = f.name) =
      some f.toOptions := by
  induction expect with
  | nil => cases hf
  | cons a as ih =>
    rw [List.map_cons, List.nodup_cons] at hnd
    rcases List.mem_cons.mp hf with rfl | hf'
    · rw [List.map_cons, List.find?_cons_of_pos _ (by simp [MField.toOptions])]
    · have hne : a.name ≠ f.name := by
        intro he
        exact hnd.1 (he ▸ List.mem_map_of_mem MField.name hf')
      rw [List.map_cons, List.find?_cons_of_neg _ (by simp [MField.toOptions, hne])]
      exact ih hnd.2 hf'

theorem migrateCond_self (f : MField) :
    migrateCond f.toOptions f.toOptions = false := by
  simp [migrateCond]

theorem reconcile_ops_safe (actual : List FieldOptions) (g : MField)
    (n : String) (hne : g.name ≠ n) :
    ∀ op ∈ reconcileOp actual g, opSafeFor n op := by
  intro op hop
  rcases mem_reconcileOp hop with rfl | rfl <;> exact hne

theorem index_ops_safe (hasIndex : String → Bool) (expect : List MField)
    (n : String) : ∀ op ∈ indexOps hasIndex expect, opSafeFor n op := by
  intro op hop
  obtain ⟨g, _, _, _, rfl⟩ := mem_indexOps.mp hop
  trivial

theorem flatten_reconcile_safe (actual : List FieldOptions)
    (l : List MField) (n : String) (hne : ∀ g ∈ l, g.name ≠ n) :
    ∀ op ∈ (l.map (reconcileOp actual)).flatten, opSafeFor n op := by
  intro op hop
  rw [List.mem_flatten] at hop
  obtain ⟨ops, hops, hop2⟩ := hop
  rw [List.mem_map] at hops
  obtain ⟨g, hg, rfl⟩ := hops
  exact reconcile_ops_safe actual g n (hne g hg) op hop2

theorem applyOps_createIndex_only (expect : List MField) (ops : List DDLOp)
    (h : ∀ op ∈ ops, ∃ n, op = DDLOp.createIndex n) : ∀ env,
    (applyOps expect env ops).actual = env.actual ∧
    (applyOps expect env ops).hasTable = env.hasTable := by
  induction ops with
  | nil => intro env; exact ⟨rfl, rfl⟩
  | cons op rest ih =>
    intro env
    obtain ⟨n, rfl⟩ := h _ (List.mem_cons_self _ _)
    rw [applyOps]
    have := ih (fun o ho => h o (List.mem_cons_of_mem _ ho)) (applyOp expect env (DDLOp.createIndex n))
    simpa [applyOp] using this

theorem autoMigrate_false (env : MigrateEnv) (expect : List MField)
    (hok : ∀ op, env.execOk op = true) (h : env.hasTable = false) :
    autoMigrate env expect = ⟨createTableOps expect, true⟩ := by
  simp [autoMigrate, h, runOps_all _ _ hok]

theorem autoMigrate_true (env : MigrateEnv) (expect : List MField)
    (hok : ∀ op, env.execOk op = true) (h : env.hasTable = true) :
    autoMigrate env expect =
      ⟨(expect.map (reconcileOp env.actual)).flatten ++
        indexOps env.hasIndex expect, true⟩ := by
  simp [autoMigrate, h, runOps_all _ _ hok]

theorem applyOps_execOk (expect : List MField) (ops : List DDLOp) :
    ∀ env, (applyOps expect env ops).execOk = env.execOk := by
  induction ops with
  | nil => intro env; rfl
  | cons op rest ih =>
    intro env
    rw [applyOps, ih]
    cases op with
    | addColumn n =>
      simp only [applyOp]
      cases expect.find? (fun f => f.name = n) <;> rfl
    | alterColumn n =>
      simp only [applyOp]
      cases expect.find? (fun f => f.name = n) <;> rfl
    | createTable => rfl
    | createIndex n => rfl
    | dropColumn n => rfl
    | dropTable => rfl

theorem nodup_decomp (l1 l2 : List MField) (f : MField)
    (hnd : ((l1 ++ f :: l2).map MField.name).Nodup) :
    (∀ g ∈ l1, g.name ≠ f.name) ∧ (∀ g ∈ l2, g.name ≠ f.name) := by
  rw [List.map_append, List.map_cons, List.nodup_append] at hnd
  constructor
  · intro g hg he
    exact hnd.2.2 (he ▸ List.mem_map_of_mem MField.name hg)
      (List.mem_cons_self _ _)
  · intro g hg he
    have h2 := hnd.2.1
    rw [List.nodup_cons] at h2
    exact h2.1 (he ▸ List.mem_map_of_mem MField.name hg)


theorem run1_good_existing (env : MigrateEnv) (expect : List MField)
    (hnd : (expect.map MField.name).Nodup) (hok : ∀ op, env.execOk op = true)
    (htab : env.hasTable = true) (f : MField) (hf : f ∈ expect) :
    ∃ b, (applyOps expect env (autoMigrate env expect).ops).actual.find?
        (fun a => a.name = f.name) = some b ∧
      migrateCond f.toOptions b = false := by
  have hOps : (autoMigrate env expect).ops =
      (expect.map (reconcileOp env.actual)).flatten ++
        indexOps env.hasIndex expect := by
    rw [autoMigrate_true env expect hok htab]
  obtain ⟨l1, l2, hdec⟩ := List.append_of_mem hf
  obtain ⟨h1, h2⟩ := nodup_decomp l1 l2 f (hdec ▸ hnd)
  have hsplit : (expect.map (reconcileOp env.actual)).flatten ++
      indexOps env.hasIndex expect =
      (l1.map (reconcileOp env.actual)).flatten ++
        (reconcileOp env.actual f ++
          ((l2.map (reconcileOp env.actual)).flatten ++
            indexOps env.hasIndex expect)) := by
    rw [hdec]
    simp [List.map_append, List.flatten_append]
  rw [hOps, hsplit, applyOps_append, applyOps_append]
  have hsafe1 : ∀ op ∈ (l1.map (reconcileOp env.actual)).flatten,
      opSafeFor f.name op :=
    flatten_reconcile_safe env.actual l1 f.name h1
  have hsafe3 : ∀ op ∈ (l2.map (reconcileOp env.actual)).flatten ++
      indexOps env.hasIndex expect, opSafeFor f.name op := by
    intro op hop
    rcases List.mem_append.mp hop with hop | hop
    · exact flatten_reconcile_safe env.actual l2 f.name h2 op hop
    · exact index_ops_safe _ _ _ op hop
  rw [applyOps_find_safe expect _ f.name hsafe3]
  have he1 : (applyOps expect env
        ((l1.map (reconcileOp env.actual)).flatten)).actual.find?
        (fun a => a.name = f.name) =
      env.actual.find? (fun a => a.name = f.name) :=
    applyOps_find_safe expect _ f.name hsafe1 env
  cases hfind : env.actual.find? (fun a => a.name = f.name) with
  | none =>
    rw [reconcile_none hfind]
    refine ⟨f.toOptions, ?_, migrateCond_self f⟩
    rw [applyOps, applyOps]
    simp only [applyOp, find?_expect_self expect f hnd hf]
    rw [List.find?_append, he1, hfind,
      List.find?_cons_of_pos _ (by simp [MField.toOptions])]
    rfl
  | some a =>
    by_cases hc : migrateCond f.toOptions a = true
    · rw [reconcile_some hfind, if_pos hc]
      refine ⟨f.toOptions, ?_, migrateCond_self f⟩
      rw [applyOps, applyOps]
      simp only [applyOp, find?_expect_self expect f hnd hf]
      exact find?_replace_self f.name f.toOptions (by simp [MField.toOptions])
        _ a (he1.trans hfind)
    · rw [reconcile_some hfind, if_neg hc]
      refine ⟨a, ?_, by simpa using hc⟩
      rw [applyOps]
      exact he1.trans hfind

theorem run1_good_index (env : MigrateEnv) (expect : List MField)
    (hok : ∀ op, env.execOk op = true) (f : MField) (hf : f ∈ expect)
    (hkey : f.indexKey = true) :
    (applyOps expect env (autoMigrate env expect).ops).hasIndex f.name = true := by
  rw [applyOps_hasIndex]
  by_cases hidx : env.hasIndex f.name = true
  · exact Or.inl hidx
  · right
    cases htab : env.hasTable
    · rw [autoMigrate_false env expect hok htab]
      exact mem_createTableOps.mpr (Or.inr ⟨f, hf, hkey, rfl⟩)
    · rw [autoMigrate_true env expect hok htab]
      apply List.mem_append_right
      exact mem_indexOps.mpr ⟨f, hf, hkey, by simpa using hidx, rfl⟩

theorem applyOps_hasTable_true (expect : List MField) (ops : List DDLOp)
    (h : ∀ op ∈ ops, op ≠ DDLOp.dropTable) : ∀ env, env.hasTable = true →
    (applyOps expect env ops).hasTable = true := by
  induction ops with
  | nil => intro env ht; exact ht
  | cons op rest ih =>
    intro env ht
    rw [applyOps]
    refine ih (fun o ho => h o (List.mem_cons_of_mem _ ho)) _ ?_
    cases op with
    | createTable => rfl
    | dropTable => exact absurd rfl (h _ (List.mem_cons_self _ _))
    | addColumn n =>
      simp only [applyOp]
      cases expect.find? (fun f => f.name = n) <;> exact ht
    | alterColumn n =>
      simp only [applyOp]
      cases expect.find? (fun f => f.name = n) <;> exact ht
    | createIndex n => exact ht
    | dropColumn n => exact ht

theorem run1_hasTable (env : MigrateEnv) (expect : List MField)
    (hok : ∀ op, env.execOk op = true) :
    (applyOps expect env (autoMigrate env expect).ops).hasTable = true := by
  cases htab : env.hasTable
  · rw [autoMigrate_false env expect hok htab, createTableOps, applyOps]
    have htail : ∀ op ∈ ((expect.filter (fun f => f.indexKey)).reverse.map
        (fun f => DDLOp.createIndex f.name)), ∃ n, op = DDLOp.createIndex n := by
      intro op hop
      rw [List.mem_map] at hop
      obtain ⟨g, _, rfl⟩ := hop
      exact ⟨g.name, rfl⟩
    exact (applyOps_createIndex_only expect _ htail _).2
  · apply applyOps_hasTable_true expect _ ?_ env htab
    intro op hop
    rw [autoMigrate_true env expect hok htab] at hop
    rcases List.mem_append.mp hop with hop | hop
    · rw [List.mem_flatten] at hop
      obtain ⟨l, hl, hop2⟩ := hop
      rw [List.mem_map] at hl
      obtain ⟨g, _, rfl⟩ := hl
      rcases mem_reconcileOp hop2 with rfl | rfl <;> simp
    · obtain ⟨g, _, _, _, rfl⟩ := mem_indexOps.mp hop
      simp

/-- C5: running AutoMigrate a second time, against the catalog state
produced by applying the first run's operations, issues zero DDL operations
(no AddColumn, AlterColumn, CreateIndex or CreateTable) and succeeds. -/
theorem claim_C5_idempotent (env : MigrateEnv) (expect : List MField)
    (hnd : (expect.map MField.name).Nodup)
    (hok : ∀ op, env.execOk op = true) :
    autoMigrate (applyOps expect env (autoMigrate env expect).ops) expect =
      ⟨[], true⟩ := by
  have h2tab : (applyOps expect env (autoMigrate env expect).ops).hasTable = true :=
    run1_hasTable env expect hok
  have hok2 : ∀ op, (applyOps expect env (autoMigrate env expect).ops).execOk op = true := by
    intro op
    rw [applyOps_execOk]
    exact hok op
  have hgood : ∀ f ∈ expect, ∃ b,
      (applyOps expect env (autoMigrate env expect).ops).actual.find?
        (fun a => a.name = f.name) = some b ∧
      migrateCond f.toOptions b = false := by
    intro f hf
    cases htab : env.hasTable
    · have hOps : (autoMigrate env expect).ops = createTableOps expect := by
        rw [autoMigrate_false env expect hok htab]
      rw [hOps, createTableOps, applyOps]
      have htail : ∀ op ∈ ((expect.filter (fun f => f.indexKey)).reverse.map
          (fun f => DDLOp.createIndex f.name)), ∃ n, op = DDLOp.createIndex n := by
        intro op hop
        rw [List.mem_map] at hop
        obtain ⟨g, _, rfl⟩ := hop
        exact ⟨g.name, rfl⟩
      refine ⟨f.toOptions, ?_, migrateCond_self f⟩
      rw [(applyOps_createIndex_only expect _ htail _).1]
      simp only [applyOp]
      exact find?_expect_toOptions expect f hnd hf
    · exact run1_good_existing env expect hnd hok htab f hf
  have hidx : ∀ f ∈ expect, f.indexKey = true →
      (applyOps expect env (autoMigrate env expect).ops).hasIndex f.name = true :=
    fun f hf hk => run1_good_index env expect hok f hf hk
  rw [autoMigrate_true _ expect hok2 h2tab]
  have hflat : (expect.map (reconcileOp
      (applyOps expect env (autoMigrate env expect).ops).actual)).flatten = [] := by
    rw [List.flatten_eq_nil_iff]
    intro l hl
    rw [List.mem_map] at hl
    obtain ⟨f, hf, rfl⟩ := hl
    obtain ⟨b, hb, hc⟩ := hgood f hf
    rw [reconcile_some hb]
    simp [hc]
  have hio : indexOps
      (applyOps expect env (autoMigrate env expect).ops).hasIndex expect = [] := by
    rw [indexOps]
    have hfil : expect.filter (fun f => f.indexKey &&
        !(applyOps expect env (autoMigrate env expect).ops).hasIndex f.name) = [] := by
      rw [List.filter_eq_nil_iff]
      intro f hf
      by_cases hk : f.indexKey = true
      · simp [hk, hidx f hf hk]
      · rw [Bool.not_eq_true] at hk
        simp [hk]
    rw [hfil]
    rfl
  rw [hflat, hio]
  rfl


/-- Witness for C4: a concrete migration run creating a missing table. -/
theorem claim_C4_witness :
    autoMigrate (⟨false, [], fun _ => false, fun _ => true⟩ : MigrateEnv)
      [⟨"id", none, some true, true⟩] =
      ⟨createTableOps [⟨"id", none, some true, true⟩], true⟩ :=
  (claim_C4_automigrate _ _ (fun _ => rfl) (by decide)).1 rfl

/-- Witness for C5: the concrete second run after creating the table
issues nothing. -/
theorem claim_C5_witness :
    autoMigrate (applyOps [⟨"id", none, some true, true⟩]
        (⟨false, [], fun _ => false, fun _ => true⟩ : MigrateEnv)
        (autoMigrate (⟨false, [], fun _ => false, fun _ => true⟩ : MigrateEnv)
          [⟨"id", none, some true, true⟩]).ops)
      [⟨"id", none, some true, true⟩] = ⟨[], true⟩ :=
  claim_C5_idempotent _ _ (by decide) (fun _ => rfl)


end LibGo
